import Mathlib

/-!
Shallow embedding of the `by_address` crate (`src/lib.rs`).

The crate wraps pointer-like values and re-bases equality, ordering and
hashing on the pointer itself instead of the pointee.  A Rust raw pointer
`*const P` is embedded as a `RawPtr`: a data address word plus, for fat
pointers (unsized pointees), a metadata word (slice length or vtable
address).  A `Deref` impl for a pointer type `T` is embedded as a function
`d : T → RawPtr` giving the raw pointer `&*t` to the pointee; the crate's
`addr` helper composes the wrapper projection with `d`.  Hashers are
embedded generically as a state type with a word-write operation, so that
facts about hashing hold for every hasher.
-/



/-- Embedding of a Rust raw pointer `*const P`.  `data` is the data address
of the first byte of the pointee.  `meta` is the fat-pointer metadata word:
`none` when `P` is sized (thin pointer), `some` length or vtable address
when `P` is unsized (fat pointer). -/
structure RawPtr where
  data : Nat
  meta : Option Nat
deriving DecidableEq

/-- Embedding of `core::ptr::eq`: bitwise pointer equality.  Both the data
address and (for fat pointers) the metadata word are compared. -/
def ptr_eq (p q : RawPtr) : Bool :=
  p.data == q.data && p.meta == q.meta

/-- Embedding of the cast `ptr as *const ()` used by `ByThinAddress`:
casting to a thin untyped pointer keeps the data address and discards the
fat-pointer metadata. -/
def castThin (p : RawPtr) : RawPtr :=
  { data := p.data, meta := none }

/-- Embedding of `usize`/address comparison (`Ord` on machine words). -/
def wordCmp (a b : Nat) : Ordering :=
  if a < b then .lt else if a = b then .eq else .gt

/-- Comparison of the metadata components of two raw pointers.  Two
pointers of the same Rust type are either both thin or both fat; the
mixed cases are ordered arbitrarily (they never arise). -/
def metaCmp : Option Nat → Option Nat → Ordering
  | none, none => .eq
  | none, some _ => .lt
  | some _, none => .gt
  | some a, some b => wordCmp a b

/-- Embedding of `Ord for *const P`: lexicographic comparison in which the
data address dominates and the metadata word breaks ties. -/
def rawPtrCmp (p q : RawPtr) : Ordering :=
  match wordCmp p.data q.data with
  | .eq => metaCmp p.meta q.meta
  | o => o

/-- An arbitrary streaming hasher (`core::hash::Hasher`): a state of type
`H` fed one machine word at a time. -/
structure Hasher (H : Type) where
  write : H → Nat → H

/-- Embedding of `Hash for *const P`: write the data address into the
hasher, then the metadata word when the pointer is fat. -/
def hashRawPtr {H : Type} (hs : Hasher H) (p : RawPtr) (state : H) : H :=
  match p.meta with
  | none => hs.write state p.data
  | some m => hs.write (hs.write state p.data) m

/-- `ByAddress<T>` (lib.rs 96-100): transparent single-field wrapper around
a pointer value of type `T`. -/
structure ByAddress (T : Type) where
  val : T

/-- `ByThinAddress<T>` (lib.rs 254-258): transparent single-field wrapper
around a pointer value of type `T`. -/
structure ByThinAddress (T : Type) where
  val : T

/-- `ByAddress::addr` (lib.rs 107-109): the raw pointer `&*self.0` to the
pointee, obtained through the `Deref` embedding `d`. -/
def ByAddress.addr {T : Type} (d : T → RawPtr) (a : ByAddress T) : RawPtr :=
  d a.val

/-- `ByAddress::from_ref` (lib.rs 112-117): reinterpret a borrow of `T` as
a borrow of `ByAddress<T>`; by `repr(transparent)` the wrapper holds
exactly the value `r`. -/
def ByAddress.from_ref {T : Type} (r : T) : ByAddress T :=
  ⟨r⟩

/-- `Deref for ByAddress` (lib.rs 199-208): dereferencing the wrapper
yields the wrapped pointer value `self.0`. -/
def ByAddress.deref {T : Type} (a : ByAddress T) : T :=
  a.val

/-- `PartialEq for ByAddress` (lib.rs 157-164): `ptr::eq(self.addr(),
other.addr())` — full fat-pointer equality. -/
def ByAddress.eq {T : Type} (d : T → RawPtr) (a b : ByAddress T) : Bool :=
  ptr_eq (a.addr d) (b.addr d)

/-- `Ord for ByAddress` (lib.rs 168-175): `self.addr().cmp(&other.addr())`
— full fat-pointer comparison. -/
def ByAddress.cmp {T : Type} (d : T → RawPtr) (a b : ByAddress T) : Ordering :=
  rawPtrCmp (a.addr d) (b.addr d)

/-- `PartialOrd for ByAddress` (lib.rs 178-185): always
`Some(self.addr().cmp(&other.addr()))`. -/
def ByAddress.partial_cmp {T : Type} (d : T → RawPtr) (a b : ByAddress T) :
    Option Ordering :=
  some (rawPtrCmp (a.addr d) (b.addr d))

/-- `Hash for ByAddress` (lib.rs 188-195): `self.addr().hash(state)` — the
full raw pointer is fed to the hasher. -/
def ByAddress.hash {T H : Type} (d : T → RawPtr) (hs : Hasher H)
    (a : ByAddress T) (state : H) : H :=
  hashRawPtr hs (a.addr d) state

/-- `ByThinAddress::addr` (lib.rs 265-267): the raw pointer `&*self.0` to
the pointee. -/
def ByThinAddress.addr {T : Type} (d : T → RawPtr) (a : ByThinAddress T) : RawPtr :=
  d a.val

/-- `ByThinAddress::from_ref` (lib.rs 270-275): reinterpret a borrow of `T`
as a borrow of `ByThinAddress<T>`. -/
def ByThinAddress.from_ref {T : Type} (r : T) : ByThinAddress T :=
  ⟨r⟩

/-- `Deref for ByThinAddress` (lib.rs 341-350): dereferencing yields the
wrapped pointer value `self.0`. -/
def ByThinAddress.deref {T : Type} (a : ByThinAddress T) : T :=
  a.val

/-- `PartialEq for ByThinAddress` (lib.rs 299-306): `ptr::eq(self.addr()
as *const (), other.addr() as *const _)` — the pointers are cast thin,
then compared. -/
def ByThinAddress.eq {T : Type} (d : T → RawPtr) (a b : ByThinAddress T) : Bool :=
  ptr_eq (castThin (a.addr d)) (castThin (b.addr d))

/-- `Ord for ByThinAddress` (lib.rs 310-317): the pointers are cast thin,
then compared. -/
def ByThinAddress.cmp {T : Type} (d : T → RawPtr) (a b : ByThinAddress T) :
    Ordering :=
  rawPtrCmp (castThin (a.addr d)) (castThin (b.addr d))

/-- `PartialOrd for ByThinAddress` (lib.rs 320-327): always
`Some((self.addr() as *const ()).cmp(&(other.addr() as *const ())))`. -/
def ByThinAddress.partial_cmp {T : Type} (d : T → RawPtr)
    (a b : ByThinAddress T) : Option Ordering :=
  some (rawPtrCmp (castThin (a.addr d)) (castThin (b.addr d)))

/-- `Hash for ByThinAddress` (lib.rs 330-337): `(self.addr() as *const
()).hash(state)` — only the thin pointer is fed to the hasher. -/
def ByThinAddress.hash {T H : Type} (d : T → RawPtr) (hs : Hasher H)
    (a : ByThinAddress T) (state : H) : H :=
  hashRawPtr hs (castThin (a.addr d)) state

/-- `DebugAdapter`'s `fmt` (lib.rs 124-134): the pointee's debug output,
then `" @ "`, then the pointer's formatting, concatenated into the
formatter.  The two rendered fragments are the inputs. -/
def DebugAdapter.fmt (pointeeDebug addrFmt : String) : String :=
  pointeeDebug ++ " @ " ++ addrFmt

/-- `Debug for ByAddress` (lib.rs 136-145): `debug_tuple("ByAddress")`
with the adapter output as its single field renders
`ByAddress(<field>)`. -/
def ByAddress.debugFmt (pointeeDebug addrFmt : String) : String :=
  "ByAddress(" ++ DebugAdapter.fmt pointeeDebug addrFmt ++ ")"

/-- `Debug for ByThinAddress` (lib.rs 278-287): `debug_tuple(
"ByThinAddress")` with the adapter output as its single field renders
`ByThinAddress(<field>)`. -/
def ByThinAddress.debugFmt (pointeeDebug addrFmt : String) : String :=
  "ByThinAddress(" ++ DebugAdapter.fmt pointeeDebug addrFmt ++ ")"

/-- The kinds of trait impl and inherent constructor `src/lib.rs` can give
a wrapper, one constructor per impl kind appearing in the file. -/
inductive ApiItem where
  | copyCloneItem
  | defaultItem
  | debugItem
  | displayItem
  | eqItem
  | ordItem
  | partialOrdItem
  | hashItem
  | derefItem
  | derefMutItem
  | asRefItem
  | asMutItem
  | fromPointerValue
  | fromRefItem
deriving DecidableEq

/-- The impls `src/lib.rs` provides for `ByAddress`: derive(Copy, Clone,
Default) (97), Debug (136), Display (147), PartialEq/Eq (157-165), Ord
(168), PartialOrd (178), Hash (188), Deref (199), DerefMut (210), AsRef
(219), AsMut (228), From<T> (237), and the inherent `from_ref` (112). -/
def byAddressApi : List ApiItem :=
  [.copyCloneItem, .defaultItem, .debugItem, .displayItem, .eqItem,
   .ordItem, .partialOrdItem, .hashItem, .derefItem, .derefMutItem,
   .asRefItem, .asMutItem, .fromPointerValue, .fromRefItem]

/-- The impls `src/lib.rs` provides for `ByThinAddress`: derive(Copy,
Clone, Default) (255), Debug (278), Display (289), PartialEq/Eq (299-307),
Ord (310), PartialOrd (320), Hash (330), Deref (341), DerefMut (352),
AsRef (361), and the inherent `from_ref` (270).  The file contains no
`From<T>` and no `AsMut` impl for `ByThinAddress`. -/
def byThinAddressApi : List ApiItem :=
  [.copyCloneItem, .defaultItem, .debugItem, .displayItem, .eqItem,
   .ordItem, .partialOrdItem, .hashItem, .derefItem, .derefMutItem,
   .asRefItem, .fromRefItem]

/-- A concrete pointer-like value: the raw pointer it carries together
with the current contents of its pointee.  Its `Deref` embedding is the
projection `PtrVal.ptr`; the identity operations of the wrappers never
consult `pointee`. -/
structure PtrVal (V : Type) where
  ptr : RawPtr
  pointee : V

/-- A raw pointer is determined by its data address and metadata word. -/
theorem RawPtr.eq_iff (p q : RawPtr) :
    p = q ↔ p.data = q.data ∧ p.meta = q.meta := by
  cases p
  cases q
  simp

/-- `ptr_eq` decides equality of raw pointers. -/
theorem ptr_eq_iff (p q : RawPtr) : ptr_eq p q = true ↔ p = q := by
  cases p
  cases q
  simp [ptr_eq]

/-- Nat comparison returns `eq` exactly on equal words. -/
theorem wordCmp_eq_iff (a b : Nat) : wordCmp a b = .eq ↔ a = b := by
  rcases Nat.lt_trichotomy a b with h | h | h
  · have h1 : a ≠ b := by omega
    simp [wordCmp, h, h1]
  · simp [wordCmp, h]
  · have h1 : ¬ a < b := by omega
    have h2 : a ≠ b := by omega
    simp [wordCmp, h1, h2]

/-- Nat comparison returns `lt` exactly when the first word is smaller. -/
theorem wordCmp_lt_iff (a b : Nat) : wordCmp a b = .lt ↔ a < b := by
  rcases Nat.lt_trichotomy a b with h | h | h
  · simp [wordCmp, h]
  · simp [wordCmp, h]
  · have h1 : ¬ a < b := by omega
    have h2 : a ≠ b := by omega
    simp [wordCmp, h1, h2]

/-- Word comparison is reflexive. -/
theorem wordCmp_self (a : Nat) : wordCmp a a = .eq := by
  simp [wordCmp]

/-- Swapping the arguments of a word comparison swaps the verdict. -/
theorem wordCmp_swap (a b : Nat) : (wordCmp a b).swap = wordCmp b a := by
  rcases Nat.lt_trichotomy a b with h | h | h
  · have h1 : ¬ b < a := by omega
    have h2 : b ≠ a := by omega
    simp [wordCmp, h, h1, h2, Ordering.swap]
  · simp [wordCmp, h, Ordering.swap]
  · have h1 : ¬ a < b := by omega
    have h2 : a ≠ b := by omega
    simp [wordCmp, h, h1, h2, Ordering.swap]

/-- Strict word comparison is transitive. -/
theorem wordCmp_lt_trans {a b c : Nat} (h1 : wordCmp a b = .lt)
    (h2 : wordCmp b c = .lt) : wordCmp a c = .lt := by
  rw [wordCmp_lt_iff] at h1 h2 ⊢
  omega

/-- Metadata comparison returns `eq` exactly on equal metadata. -/
theorem metaCmp_eq_iff (x y : Option Nat) : metaCmp x y = .eq ↔ x = y := by
  cases x <;> cases y <;> simp [metaCmp, wordCmp_eq_iff]

/-- Swapping the arguments of a metadata comparison swaps the verdict. -/
theorem metaCmp_swap (x y : Option Nat) : (metaCmp x y).swap = metaCmp y x := by
  cases x <;> cases y
  · rfl
  · rfl
  · rfl
  · exact wordCmp_swap _ _

/-- Strict metadata comparison is transitive. -/
theorem metaCmp_lt_trans {x y z : Option Nat} (h1 : metaCmp x y = .lt)
    (h2 : metaCmp y z = .lt) : metaCmp x z = .lt := by
  cases x <;> cases y <;> cases z <;>
    simp [metaCmp, wordCmp_lt_iff] at h1 h2 ⊢
  omega

/-- The lexicographic pointer comparison, unfolded to a case split on the
data addresses. -/
theorem rawPtrCmp_cases (p q : RawPtr) :
    rawPtrCmp p q =
      if p.data = q.data then metaCmp p.meta q.meta
      else wordCmp p.data q.data := by
  unfold rawPtrCmp
  by_cases h : p.data = q.data
  · rw [if_pos h, (wordCmp_eq_iff p.data q.data).mpr h]
  · rw [if_neg h]
    rcases hw : wordCmp p.data q.data with _ | _ | _
    · rfl
    · exact absurd ((wordCmp_eq_iff p.data q.data).mp hw) h
    · rfl

/-- Pointer comparison is reflexive. -/
theorem rawPtrCmp_self (p : RawPtr) : rawPtrCmp p p = .eq := by
  rw [rawPtrCmp_cases]
  simp [metaCmp_eq_iff]

/-- Pointer comparison returns `eq` exactly on equal fingerprints. -/
theorem rawPtrCmp_eq_iff (p q : RawPtr) : rawPtrCmp p q = .eq ↔ p = q := by
  rw [rawPtrCmp_cases, RawPtr.eq_iff]
  by_cases h : p.data = q.data
  · simp [h, metaCmp_eq_iff]
  · simp [h, wordCmp_eq_iff]

/-- Swapping the arguments of a pointer comparison swaps the verdict. -/
theorem rawPtrCmp_swap (p q : RawPtr) : (rawPtrCmp p q).swap = rawPtrCmp q p := by
  rw [rawPtrCmp_cases, rawPtrCmp_cases]
  by_cases h : p.data = q.data
  · simp [h, metaCmp_swap]
  · have h1 : ¬ q.data = p.data := fun e => h e.symm
    simp [h, h1, wordCmp_swap]

/-- Strict pointer comparison is transitive. -/
theorem rawPtrCmp_lt_trans {p q r : RawPtr} (h1 : rawPtrCmp p q = .lt)
    (h2 : rawPtrCmp q r = .lt) : rawPtrCmp p r = .lt := by
  rw [rawPtrCmp_cases] at h1 h2 ⊢
  by_cases e1 : p.data = q.data <;> by_cases e2 : q.data = r.data
  · rw [if_pos e1] at h1
    rw [if_pos e2] at h2
    rw [if_pos (e1.trans e2)]
    exact metaCmp_lt_trans h1 h2
  · rw [if_neg e2, wordCmp_lt_iff] at h2
    have e3 : ¬ p.data = r.data := by omega
    rw [if_neg e3, wordCmp_lt_iff]
    omega
  · rw [if_neg e1, wordCmp_lt_iff] at h1
    have e3 : ¬ p.data = r.data := by omega
    rw [if_neg e3, wordCmp_lt_iff]
    omega
  · rw [if_neg e1, wordCmp_lt_iff] at h1
    rw [if_neg e2, wordCmp_lt_iff] at h2
    have e3 : ¬ p.data = r.data := by omega
    rw [if_neg e3, wordCmp_lt_iff]
    omega

/-- A pointer comparison returns one of the three verdicts. -/
theorem rawPtrCmp_trichotomy (p q : RawPtr) :
    rawPtrCmp p q = .lt ∨ rawPtrCmp p q = .eq ∨ rawPtrCmp p q = .gt := by
  rcases rawPtrCmp p q with _ | _ | _
  · exact Or.inl rfl
  · exact Or.inr (Or.inl rfl)
  · exact Or.inr (Or.inr rfl)

/-- C1: two `ByAddress` wrappers over the same pointer type are equal iff
their full pointer fingerprints are equal: for a sized target (no metadata
word) this is data-address equality, and for an unsized target both the
data address and the metadata word (length or vtable address) must
match. -/
theorem byAddress_eq_iff_fingerprint {T : Type} (d : T → RawPtr)
    (a b : ByAddress T) :
    (ByAddress.eq d a b = true ↔ ByAddress.addr d a = ByAddress.addr d b) ∧
    (ByAddress.eq d a b = true ↔
      (ByAddress.addr d a).data = (ByAddress.addr d b).data ∧
      (ByAddress.addr d a).meta = (ByAddress.addr d b).meta) ∧
    ((ByAddress.addr d a).meta = none → (ByAddress.addr d b).meta = none →
      (ByAddress.eq d a b = true ↔
        (ByAddress.addr d a).data = (ByAddress.addr d b).data)) := by
  refine ⟨?_, ?_, ?_⟩
  · exact ptr_eq_iff (ByAddress.addr d a) (ByAddress.addr d b)
  · rw [ByAddress.eq, ptr_eq_iff, RawPtr.eq_iff]
  · intro ha hb
    rw [ByAddress.eq, ptr_eq_iff, RawPtr.eq_iff, ha, hb]
    simp

/-- C1 witness: two wrappers of the same fat pointer are equal, at a
concrete input. -/
theorem byAddress_eq_iff_fingerprint_witness :
    ByAddress.eq (fun p : RawPtr => p) ⟨⟨1, some 2⟩⟩ ⟨⟨1, some 2⟩⟩ = true :=
  ((byAddress_eq_iff_fingerprint (fun p => p) ⟨⟨1, some 2⟩⟩ ⟨⟨1, some 2⟩⟩).1).mpr
    rfl

/-- C2: `ByThinAddress` equality, ordering and hashing are computed from
the data-address word alone (the pointer cast to an untyped thin address),
so two wrappers of pointers with equal data addresses but different
metadata words are equal, compare `Equal`, and feed identical data to any
hasher. -/
theorem byThinAddress_thin_identity {T : Type} (d : T → RawPtr)
    (a b : ByThinAddress T) :
    (ByThinAddress.eq d a b = true ↔
      (ByThinAddress.addr d a).data = (ByThinAddress.addr d b).data) ∧
    (ByThinAddress.cmp d a b =
      wordCmp (ByThinAddress.addr d a).data (ByThinAddress.addr d b).data) ∧
    (∀ (H : Type) (hs : Hasher H) (s : H),
      ByThinAddress.hash d hs a s = hs.write s (ByThinAddress.addr d a).data) ∧
    ((ByThinAddress.addr d a).data = (ByThinAddress.addr d b).data →
      ByThinAddress.eq d a b = true ∧ ByThinAddress.cmp d a b = .eq ∧
      ∀ (H : Type) (hs : Hasher H) (s : H),
        ByThinAddress.hash d hs a s = ByThinAddress.hash d hs b s) := by
  have heq : ByThinAddress.eq d a b = true ↔
      (ByThinAddress.addr d a).data = (ByThinAddress.addr d b).data := by
    rw [ByThinAddress.eq, ptr_eq_iff, RawPtr.eq_iff]
    simp [castThin]
  have hcmp : ByThinAddress.cmp d a b =
      wordCmp (ByThinAddress.addr d a).data (ByThinAddress.addr d b).data := by
    rw [ByThinAddress.cmp, rawPtrCmp_cases]
    by_cases h : (ByThinAddress.addr d a).data = (ByThinAddress.addr d b).data
    · have hcond : (castThin (ByThinAddress.addr d a)).data =
          (castThin (ByThinAddress.addr d b)).data := h
      rw [if_pos hcond, h, wordCmp_self]
      rfl
    · have hcond : ¬ (castThin (ByThinAddress.addr d a)).data =
          (castThin (ByThinAddress.addr d b)).data := h
      rw [if_neg hcond]
      rfl
  refine ⟨heq, hcmp, fun H hs s => rfl, fun h => ⟨heq.mpr h, ?_, ?_⟩⟩
  · rw [hcmp, h]
    exact wordCmp_self _
  · intro H hs s
    show hs.write s (ByThinAddress.addr d a).data =
      hs.write s (ByThinAddress.addr d b).data
    rw [h]

/-- C2 witness: wrappers of two fat pointers with the same data address
but different metadata are thin-equal and thin-compare `Equal`, at a
concrete input. -/
theorem byThinAddress_thin_identity_witness :
    ByThinAddress.eq (fun p : RawPtr => p) ⟨⟨5, some 1⟩⟩ ⟨⟨5, some 9⟩⟩ = true ∧
    ByThinAddress.cmp (fun p : RawPtr => p) ⟨⟨5, some 1⟩⟩ ⟨⟨5, some 9⟩⟩ = .eq :=
  have h :=
    (byThinAddress_thin_identity (fun p => p)
      ⟨⟨5, some 1⟩⟩ ⟨⟨5, some 9⟩⟩).2.2.2 rfl
  ⟨h.1, h.2.1⟩

/-- C3: the ordering of `ByAddress` values is a total order on the full
pointer fingerprint — reflexive, antisymmetric (the verdict `eq` forces
equal fingerprints), transitive, and total (the verdict always lands in
one of the three cases and swaps with the arguments) — in which the
data-address comparison dominates and a tie on data addresses is broken by
comparing the metadata word. -/
theorem byAddress_cmp_total_order {T : Type} (d : T → RawPtr) :
    (∀ a : ByAddress T, ByAddress.cmp d a a = .eq) ∧
    (∀ a b : ByAddress T,
      ByAddress.cmp d a b = .eq ↔ ByAddress.addr d a = ByAddress.addr d b) ∧
    (∀ a b c : ByAddress T, ByAddress.cmp d a b = .lt →
      ByAddress.cmp d b c = .lt → ByAddress.cmp d a c = .lt) ∧
    (∀ a b : ByAddress T, (ByAddress.cmp d a b).swap = ByAddress.cmp d b a) ∧
    (∀ a b : ByAddress T, ByAddress.cmp d a b = .lt ∨
      ByAddress.cmp d a b = .eq ∨ ByAddress.cmp d a b = .gt) ∧
    (∀ a b : ByAddress T,
      (ByAddress.addr d a).data = (ByAddress.addr d b).data →
      ByAddress.cmp d a b =
        metaCmp (ByAddress.addr d a).meta (ByAddress.addr d b).meta) ∧
    (∀ a b : ByAddress T,
      (ByAddress.addr d a).data ≠ (ByAddress.addr d b).data →
      ByAddress.cmp d a b =
        wordCmp (ByAddress.addr d a).data (ByAddress.addr d b).data) := by
  refine ⟨?_, ?_, ?_, ?_, ?_, ?_, ?_⟩
  · exact fun a => rawPtrCmp_self _
  · exact fun a b => rawPtrCmp_eq_iff _ _
  · exact fun a b c h1 h2 => rawPtrCmp_lt_trans h1 h2
  · exact fun a b => rawPtrCmp_swap _ _
  · exact fun a b => rawPtrCmp_trichotomy _ _
  · intro a b h
    rw [ByAddress.cmp, rawPtrCmp_cases, if_pos h]
  · intro a b h
    rw [ByAddress.cmp, rawPtrCmp_cases, if_neg h]

/-- C3 witness: at concrete fat pointers with equal data addresses, the
comparison is decided by the metadata words, transitivity composes two
strict verdicts, and reflexivity holds. -/
theorem byAddress_cmp_total_order_witness :
    ByAddress.cmp (fun p : RawPtr => p) ⟨⟨4, some 1⟩⟩ ⟨⟨4, some 1⟩⟩ = .eq ∧
    ByAddress.cmp (fun p : RawPtr => p) ⟨⟨4, some 1⟩⟩ ⟨⟨4, some 7⟩⟩ =
      metaCmp (some 1) (some 7) ∧
    ByAddress.cmp (fun p : RawPtr => p) ⟨⟨2, some 9⟩⟩ ⟨⟨5, some 0⟩⟩ = .lt :=
  have h := byAddress_cmp_total_order (T := RawPtr) (fun p => p)
  ⟨h.1 ⟨⟨4, some 1⟩⟩,
   h.2.2.2.2.2.1 ⟨⟨4, some 1⟩⟩ ⟨⟨4, some 7⟩⟩ rfl,
   h.2.2.1 ⟨⟨2, some 9⟩⟩ ⟨⟨3, some 4⟩⟩ ⟨⟨5, some 0⟩⟩ (by decide) (by decide)⟩

/-- C10: for both wrappers, equality and comparison agree — equal exactly
when the comparison verdict is `eq` — and `partial_cmp` always returns
`some` of the `cmp` verdict, so no two values are incomparable. -/
theorem eq_iff_cmp_eq_and_total {T : Type} (d : T → RawPtr) :
    (∀ a b : ByAddress T,
      (ByAddress.eq d a b = true ↔ ByAddress.cmp d a b = .eq) ∧
      ByAddress.partial_cmp d a b = some (ByAddress.cmp d a b)) ∧
    (∀ a b : ByThinAddress T,
      (ByThinAddress.eq d a b = true ↔ ByThinAddress.cmp d a b = .eq) ∧
      ByThinAddress.partial_cmp d a b = some (ByThinAddress.cmp d a b)) := by
  constructor
  · intro a b
    refine ⟨?_, rfl⟩
    rw [ByAddress.eq, ByAddress.cmp, ptr_eq_iff, rawPtrCmp_eq_iff]
  · intro a b
    refine ⟨?_, rfl⟩
    rw [ByThinAddress.eq, ByThinAddress.cmp, ptr_eq_iff, rawPtrCmp_eq_iff]

/-- C10 witness: at concrete pointers, equality of the wrappers coincides
with the `eq` verdict and `partial_cmp` wraps `cmp` in `some`. -/
theorem eq_iff_cmp_eq_and_total_witness :
    ByAddress.cmp (fun p : RawPtr => p) ⟨⟨8, none⟩⟩ ⟨⟨8, none⟩⟩ = .eq ∧
    ByThinAddress.partial_cmp (fun p : RawPtr => p) ⟨⟨8, some 2⟩⟩ ⟨⟨9, none⟩⟩ =
      some (ByThinAddress.cmp (fun p : RawPtr => p) ⟨⟨8, some 2⟩⟩ ⟨⟨9, none⟩⟩) :=
  have h := eq_iff_cmp_eq_and_total (T := RawPtr) (fun p => p)
  ⟨((h.1 ⟨⟨8, none⟩⟩ ⟨⟨8, none⟩⟩).1).mp rfl,
   (h.2 ⟨⟨8, some 2⟩⟩ ⟨⟨9, none⟩⟩).2⟩

/-- C4: for both wrapper flavours, equal wrappers feed identical data to
the hasher, so `a == b` implies `hash(a) == hash(b)` for every hasher and
every starting state. -/
theorem hash_consistent_with_eq {T : Type} (d : T → RawPtr) :
    (∀ a b : ByAddress T, ByAddress.eq d a b = true →
      ∀ (H : Type) (hs : Hasher H) (s : H),
        ByAddress.hash d hs a s = ByAddress.hash d hs b s) ∧
    (∀ a b : ByThinAddress T, ByThinAddress.eq d a b = true →
      ∀ (H : Type) (hs : Hasher H) (s : H),
        ByThinAddress.hash d hs a s = ByThinAddress.hash d hs b s) := by
  constructor
  · intro a b h H hs s
    have e : ByAddress.addr d a = ByAddress.addr d b := (ptr_eq_iff _ _).mp h
    show hashRawPtr hs (ByAddress.addr d a) s = hashRawPtr hs (ByAddress.addr d b) s
    rw [e]
  · intro a b h H hs s
    have e : castThin (ByThinAddress.addr d a) = castThin (ByThinAddress.addr d b) :=
      (ptr_eq_iff _ _).mp h
    show hashRawPtr hs (castThin (ByThinAddress.addr d a)) s =
      hashRawPtr hs (castThin (ByThinAddress.addr d b)) s
    rw [e]

/-- C4 witness: two equal wrappers produce the same hash under a concrete
list-trace hasher, for both flavours. -/
theorem hash_consistent_with_eq_witness :
    ByAddress.hash (fun p : RawPtr => p) ⟨fun s w => s ++ [w]⟩
        ⟨⟨3, some 4⟩⟩ ([] : List Nat) =
      ByAddress.hash (fun p : RawPtr => p) ⟨fun s w => s ++ [w]⟩
        ⟨⟨3, some 4⟩⟩ ([] : List Nat) ∧
    ByThinAddress.hash (fun p : RawPtr => p) ⟨fun s w => s ++ [w]⟩
        ⟨⟨3, some 4⟩⟩ ([] : List Nat) =
      ByThinAddress.hash (fun p : RawPtr => p) ⟨fun s w => s ++ [w]⟩
        ⟨⟨3, some 9⟩⟩ ([] : List Nat) :=
  have h := hash_consistent_with_eq (T := RawPtr) (fun p => p)
  ⟨h.1 ⟨⟨3, some 4⟩⟩ ⟨⟨3, some 4⟩⟩ rfl (List Nat) ⟨fun s w => s ++ [w]⟩ [],
   h.2 ⟨⟨3, some 4⟩⟩ ⟨⟨3, some 9⟩⟩ rfl (List Nat) ⟨fun s w => s ++ [w]⟩ []⟩

/-- C5: hashing a `ByAddress` wrapper of a fat pointer (unsized target)
folds the full pointer fingerprint into the hasher: every hasher observes
first the data address and then the metadata word, not the data address
alone. -/
theorem byAddress_hash_full_fingerprint {T : Type} (d : T → RawPtr)
    (a : ByAddress T) (m : Nat) (h : (ByAddress.addr d a).meta = some m) :
    ∀ (H : Type) (hs : Hasher H) (s : H),
      ByAddress.hash d hs a s =
        hs.write (hs.write s (ByAddress.addr d a).data) m := by
  intro H hs s
  show hashRawPtr hs (ByAddress.addr d a) s = _
  unfold hashRawPtr
  rcases e : ByAddress.addr d a with ⟨x, mo⟩
  rw [e] at h
  cases h
  rfl

/-- C5 witness: at a concrete fat pointer, the list-trace hasher receives
the data address and then the metadata word. -/
theorem byAddress_hash_full_fingerprint_witness :
    ByAddress.hash (fun p : RawPtr => p) ⟨fun s w => s ++ [w]⟩
      ⟨⟨7, some 11⟩⟩ ([] : List Nat) = [7, 11] := by
  have h := byAddress_hash_full_fingerprint (fun p : RawPtr => p)
    ⟨⟨7, some 11⟩⟩ 11 rfl (List Nat) ⟨fun s w => s ++ [w]⟩ []
  simpa using h

/-- C6 counterexample: the source does not give `ByThinAddress` both the
polymorphic `From<T>` conversion and the `AsMut` projection; the file ends
its `ByThinAddress` impls at `AsRef`. -/
theorem byThinAddress_missing_from_and_asMut :
    ¬ (ApiItem.fromPointerValue ∈ byThinAddressApi ∧
       ApiItem.asMutItem ∈ byThinAddressApi) := by
  decide

/-- C6 (amended): `ByThinAddress` exposes direct construction, `from_ref`,
`Deref`, `DerefMut`, `AsRef`, and the derived and identity impls in the
same form as `ByAddress` — every impl kind it has, `ByAddress` has — but
it lacks the polymorphic `From<T>` conversion and the `AsMut` projection
that `ByAddress` provides. -/
theorem byThinAddress_api_surface :
    ApiItem.derefItem ∈ byThinAddressApi ∧
    ApiItem.derefMutItem ∈ byThinAddressApi ∧
    ApiItem.asRefItem ∈ byThinAddressApi ∧
    ApiItem.fromRefItem ∈ byThinAddressApi ∧
    ApiItem.fromPointerValue ∉ byThinAddressApi ∧
    ApiItem.asMutItem ∉ byThinAddressApi ∧
    ApiItem.fromPointerValue ∈ byAddressApi ∧
    ApiItem.asMutItem ∈ byAddressApi ∧
    (∀ x : ApiItem, x ∈ byThinAddressApi → x ∈ byAddressApi) := by
  decide

/-- C7: for a pointer value `r`, the wrapper produced by `from_ref` (for
either flavour) holds exactly `r`, dereferences to the same pointee value
`r`, and addresses the same memory: its pointer fingerprint is that of
`r`. -/
theorem from_ref_same_pointee {T : Type} (d : T → RawPtr) (r : T) :
    ByAddress.deref (ByAddress.from_ref r) = r ∧
    ByThinAddress.deref (ByThinAddress.from_ref r) = r ∧
    ByAddress.addr d (ByAddress.from_ref r) = d r ∧
    ByThinAddress.addr d (ByThinAddress.from_ref r) = d r :=
  ⟨rfl, rfl, rfl, rfl⟩

/-- C7 witness: at a concrete pointer value, `from_ref` round-trips
through `deref` and preserves the address. -/
theorem from_ref_same_pointee_witness :
    ByAddress.deref (ByAddress.from_ref (⟨3, none⟩ : RawPtr)) = ⟨3, none⟩ ∧
    ByAddress.addr (fun p : RawPtr => p) (ByAddress.from_ref ⟨3, none⟩) =
      ⟨3, none⟩ :=
  have h := from_ref_same_pointee (fun p : RawPtr => p) (⟨3, none⟩ : RawPtr)
  ⟨h.1, h.2.2.1⟩

/-- C8: the identity operations of both wrappers depend only on the
pointer fingerprint and never on the pointee's contents: replacing the
pointee values while keeping the pointers fixed changes no verdict of
equality, comparison, or hashing, and pointers with distinct fingerprints
give unequal wrappers even when the pointee values are equal. -/
theorem identity_ignores_pointee {V : Type} (p q : RawPtr) (v1 v2 w1 w2 : V) :
    (ByAddress.eq PtrVal.ptr ⟨⟨p, v1⟩⟩ ⟨⟨q, w1⟩⟩ =
      ByAddress.eq PtrVal.ptr ⟨⟨p, v2⟩⟩ ⟨⟨q, w2⟩⟩) ∧
    (ByAddress.cmp PtrVal.ptr ⟨⟨p, v1⟩⟩ ⟨⟨q, w1⟩⟩ =
      ByAddress.cmp PtrVal.ptr ⟨⟨p, v2⟩⟩ ⟨⟨q, w2⟩⟩) ∧
    (∀ (H : Type) (hs : Hasher H) (s : H),
      ByAddress.hash PtrVal.ptr hs ⟨⟨p, v1⟩⟩ s =
        ByAddress.hash PtrVal.ptr hs ⟨⟨p, v2⟩⟩ s) ∧
    (ByThinAddress.eq PtrVal.ptr ⟨⟨p, v1⟩⟩ ⟨⟨q, w1⟩⟩ =
      ByThinAddress.eq PtrVal.ptr ⟨⟨p, v2⟩⟩ ⟨⟨q, w2⟩⟩) ∧
    (ByThinAddress.cmp PtrVal.ptr ⟨⟨p, v1⟩⟩ ⟨⟨q, w1⟩⟩ =
      ByThinAddress.cmp PtrVal.ptr ⟨⟨p, v2⟩⟩ ⟨⟨q, w2⟩⟩) ∧
    (∀ (H : Type) (hs : Hasher H) (s : H),
      ByThinAddress.hash PtrVal.ptr hs ⟨⟨p, v1⟩⟩ s =
        ByThinAddress.hash PtrVal.ptr hs ⟨⟨p, v2⟩⟩ s) ∧
    (v1 = w1 → p ≠ q →
      ByAddress.eq PtrVal.ptr ⟨⟨p, v1⟩⟩ ⟨⟨q, w1⟩⟩ = false) ∧
    (v1 = w1 → p.data ≠ q.data →
      ByThinAddress.eq PtrVal.ptr ⟨⟨p, v1⟩⟩ ⟨⟨q, w1⟩⟩ = false) := by
  refine ⟨rfl, rfl, fun H hs s => rfl, rfl, rfl, fun H hs s => rfl, ?_, ?_⟩
  · intro _ hpq
    rcases hb : ByAddress.eq PtrVal.ptr
        (⟨⟨p, v1⟩⟩ : ByAddress (PtrVal V)) ⟨⟨q, w1⟩⟩ with _ | _
    · rfl
    · exact absurd ((ptr_eq_iff p q).mp hb) hpq
  · intro _ hpq
    rcases hb : ByThinAddress.eq PtrVal.ptr
        (⟨⟨p, v1⟩⟩ : ByThinAddress (PtrVal V)) ⟨⟨q, w1⟩⟩ with _ | _
    · rfl
    · have e : castThin p = castThin q := (ptr_eq_iff _ _).mp hb
      exact absurd (congrArg RawPtr.data e) hpq

/-- C8 witness: at concrete pointers to equal pointee values `42`, the
wrappers of distinct addresses are unequal, and changing a pointee value
leaves the comparison verdict unchanged. -/
theorem identity_ignores_pointee_witness :
    ByAddress.eq PtrVal.ptr ⟨⟨⟨0, none⟩, (42 : Nat)⟩⟩ ⟨⟨⟨1, none⟩, 42⟩⟩ =
      false ∧
    ByAddress.cmp PtrVal.ptr ⟨⟨⟨0, none⟩, (42 : Nat)⟩⟩ ⟨⟨⟨1, none⟩, 42⟩⟩ =
      ByAddress.cmp PtrVal.ptr ⟨⟨⟨0, none⟩, (5 : Nat)⟩⟩ ⟨⟨⟨1, none⟩, 6⟩⟩ :=
  have h := identity_ignores_pointee (V := Nat) ⟨0, none⟩ ⟨1, none⟩ 42 5 42 6
  ⟨h.2.2.2.2.2.2.1 rfl (by decide), h.2.1⟩

/-- C9: for a pointer whose pointee debug-renders as `1`, the debug
rendering is exactly `ByAddress(1 @ <ADDR>)` resp. `ByThinAddress(1 @
<ADDR>)`, where `<ADDR>` is the pointer's own rendering; the part after
the wrapper tag is the same string for both wrappers. -/
theorem debug_format_spec (addrFmt : String) :
    ByAddress.debugFmt "1" addrFmt = "ByAddress(1 @ " ++ addrFmt ++ ")" ∧
    ByThinAddress.debugFmt "1" addrFmt = "ByThinAddress(1 @ " ++ addrFmt ++ ")" ∧
    ByAddress.debugFmt "1" addrFmt =
      "ByAddress" ++ ("(1 @ " ++ addrFmt ++ ")") ∧
    ByThinAddress.debugFmt "1" addrFmt =
      "ByThinAddress" ++ ("(1 @ " ++ addrFmt ++ ")") := by
  have c1 : ByAddress.debugFmt "1" addrFmt = "ByAddress(1 @ " ++ addrFmt ++ ")" := by
    show ("ByAddress(" ++ (("1" ++ " @ ") ++ addrFmt)) ++ ")" = _
    rw [← String.append_assoc]
    rfl
  have c2 : ByThinAddress.debugFmt "1" addrFmt =
      "ByThinAddress(1 @ " ++ addrFmt ++ ")" := by
    show ("ByThinAddress(" ++ (("1" ++ " @ ") ++ addrFmt)) ++ ")" = _
    rw [← String.append_assoc]
    rfl
  refine ⟨c1, c2, ?_, ?_⟩
  · rw [c1, ← String.append_assoc, ← String.append_assoc]
    rfl
  · rw [c2, ← String.append_assoc, ← String.append_assoc]
    rfl

/-- C9 witness: at a concrete address rendering, both wrappers produce the
expected debug strings. -/
theorem debug_format_spec_witness :
    ByAddress.debugFmt "1" "0x7f00" = "ByAddress(1 @ 0x7f00)" ∧
    ByThinAddress.debugFmt "1" "0x7f00" = "ByThinAddress(1 @ 0x7f00)" :=
  have h := debug_format_spec "0x7f00"
  ⟨by rw [h.1]; rfl, by rw [h.2.1]; rfl⟩
